import Mathlib

/-!
Verification of the certificate-ledger application (src/tmsl/app.py).

The application canonicalizes a certificate document into a pipe-joined
string, hashes it with SHA-256, stores the hex digest in an append-only
table keyed by a freshly generated UUID, and later verifies candidate
documents by recomputing and comparing the digest.

Embedding conventions:
- Field values are `List Char`; Python's `str.strip()` and `str.lower()`
  are modelled on the ASCII range (the only range exercised here).
- SHA-256 is implemented in full over byte lists (`List Nat`, bytes < 256),
  with machine words as `Nat` reduced mod 2^32.
- The database session is modelled as an explicit list of records threaded
  through the handlers; `uuid.uuid4()` and `datetime.utcnow` are
  nondeterministic inputs, so they are passed as parameters.
-/

abbrev Str := List Char

/-- Whitespace characters stripped by Python's `str.strip()` (ASCII range). -/
def isPySpace (c : Char) : Bool :=
  c = ' ' || c = '\t' || c = '\n' || c = '\x0d' || c = '\x0b' || c = '\x0c'

def dropRightWhile (p : Char → Bool) (l : Str) : Str :=
  (l.reverse.dropWhile p).reverse

/-- Python `str.strip()`: remove leading and trailing whitespace. -/
def pyStrip (s : Str) : Str :=
  dropRightWhile isPySpace (s.dropWhile isPySpace)

/-- Lower-casing of a single character, as Python `str.lower()` acts on ASCII. -/
def lowerChar (c : Char) : Char :=
  if 'A' ≤ c ∧ c ≤ 'Z' then Char.ofNat (c.toNat + 32) else c

/-- Python `str.lower()`. -/
def pyLower (s : Str) : Str := s.map lowerChar

/-- UTF-8 encoding of one code point. -/
def utf8Char (c : Char) : List Nat :=
  let n := c.toNat
  if n < 128 then [n]
  else if n < 2048 then [192 + n / 64, 128 + n % 64]
  else if n < 65536 then [224 + n / 4096, 128 + (n / 64) % 64, 128 + n % 64]
  else [240 + n / 262144, 128 + (n / 4096) % 64, 128 + (n / 64) % 64, 128 + n % 64]

/-- Python `str.encode('utf-8')`. -/
def utf8 (s : Str) : List Nat := (s.map utf8Char).flatten

/-! ### SHA-256 (FIPS 180-4), on byte lists -/

def w32 (n : Nat) : Nat := n % 4294967296

def wadd (a b : Nat) : Nat := (a + b) % 4294967296

def rotr (k n : Nat) : Nat := w32 (Nat.lor (n >>> k) (n <<< (32 - k)))

def smallSigma0 (x : Nat) : Nat := Nat.xor (Nat.xor (rotr 7 x) (rotr 18 x)) (x >>> 3)

def smallSigma1 (x : Nat) : Nat := Nat.xor (Nat.xor (rotr 17 x) (rotr 19 x)) (x >>> 10)

def bigSigma0 (x : Nat) : Nat := Nat.xor (Nat.xor (rotr 2 x) (rotr 13 x)) (rotr 22 x)

def bigSigma1 (x : Nat) : Nat := Nat.xor (Nat.xor (rotr 6 x) (rotr 11 x)) (rotr 25 x)

def chWord (x y z : Nat) : Nat :=
  Nat.xor (Nat.land x y) (Nat.land (Nat.xor x 4294967295) z)

def majWord (x y z : Nat) : Nat :=
  Nat.xor (Nat.xor (Nat.land x y) (Nat.land x z)) (Nat.land y z)

def shaK : List Nat :=
  [1116352408, 1899447441, 3049323471, 3921009573, 961987163,
   1508970993, 2453635748, 2870763221, 3624381080, 310598401,
   607225278, 1426881987, 1925078388, 2162078206, 2614888103,
   3248222580, 3835390401, 4022224774, 264347078, 604807628,
   770255983, 1249150122, 1555081692, 1996064986, 2554220882,
   2821834349, 2952996808, 3210313671, 3336571891, 3584528711,
   113926993, 338241895, 666307205, 773529912, 1294757372,
   1396182291, 1695183700, 1986661051, 2177026350, 2456956037,
   2730485921, 2820302411, 3259730800, 3345764771, 3516065817,
   3600352804, 4094571909, 275423344, 430227734, 506948616,
   659060556, 883997877, 958139571, 1322822218, 1537002063,
   1747873779, 1955562222, 2024104815, 2227730452, 2361852424,
   2428436474, 2756734187, 3204031479, 3329325298]

structure SHAState where
  a : Nat
  b : Nat
  c : Nat
  d : Nat
  e : Nat
  f : Nat
  g : Nat
  h : Nat
deriving DecidableEq

def shaH0 : SHAState :=
  ⟨1779033703, 3144134277, 1013904242, 2773480762,
   1359893119, 2600822924, 528734635, 1541459225⟩

/-- `k` bytes of `n` in big-endian order. -/
def beBytes : Nat → Nat → List Nat
  | 0, _ => []
  | k + 1, n => beBytes k (n / 256) ++ [n % 256]

/-- SHA-256 message padding: append 0x80, zeros and the 64-bit bit length. -/
def padMsg (msg : List Nat) : List Nat :=
  msg ++ 0x80 :: List.replicate ((119 - msg.length % 64) % 64) 0
      ++ beBytes 8 (msg.length * 8)

/-- Group bytes into big-endian 32-bit words. -/
def toWords : List Nat → List Nat
  | a :: b :: c :: d :: rest =>
      (a * 16777216 + b * 65536 + c * 256 + d) :: toWords rest
  | _ => []

/-- Extend a 16-word block by `k` further schedule words. -/
def extendSched (w : List Nat) : Nat → List Nat
  | 0 => w
  | k + 1 =>
    let w' := extendSched w k
    w' ++ [wadd (wadd (smallSigma1 (w'.getD (w'.length - 2) 0))
                      (w'.getD (w'.length - 7) 0))
                (wadd (smallSigma0 (w'.getD (w'.length - 15) 0))
                      (w'.getD (w'.length - 16) 0))]

def shaRound (s : SHAState) (k w : Nat) : SHAState :=
  let t1 := wadd s.h (wadd (bigSigma1 s.e) (wadd (chWord s.e s.f s.g) (wadd k w)))
  let t2 := wadd (bigSigma0 s.a) (majWord s.a s.b s.c)
  ⟨wadd t1 t2, s.a, s.b, s.c, wadd s.d t1, s.e, s.f, s.g⟩

def compressBlock (s : SHAState) (block : List Nat) : SHAState :=
  let w := extendSched (toWords block) 48
  let s' := (shaK.zip w).foldl (fun st p => shaRound st p.1 p.2) s
  ⟨wadd s.a s'.a, wadd s.b s'.b, wadd s.c s'.c, wadd s.d s'.d,
   wadd s.e s'.e, wadd s.f s'.f, wadd s.g s'.g, wadd s.h s'.h⟩

/-- Fold the compression function over successive 64-byte blocks.  The first
argument is structural-recursion fuel; each step consumes one 64-byte block,
so any fuel of at least `msg.length` suffices and the result is the loop
over all blocks. -/
def processChunks : Nat → SHAState → List Nat → SHAState
  | 0, s, _ => s
  | _, s, [] => s
  | fuel + 1, s, m :: rest =>
      processChunks fuel (compressBlock s (m :: rest.take 63)) (rest.drop 63)

def sha256Bytes (msg : List Nat) : List Nat :=
  let padded := padMsg msg
  let fin := processChunks padded.length shaH0 padded
  beBytes 4 fin.a ++ beBytes 4 fin.b ++ beBytes 4 fin.c ++ beBytes 4 fin.d ++
  beBytes 4 fin.e ++ beBytes 4 fin.f ++ beBytes 4 fin.g ++ beBytes 4 fin.h

def hexDigit (n : Nat) : Char :=
  if n < 10 then Char.ofNat (48 + n) else Char.ofNat (87 + n)

/-- Lowercase hex rendering of a byte list, as `hashlib`'s `hexdigest()`. -/
def hexOfBytes (bs : List Nat) : Str :=
  (bs.map (fun b => [hexDigit (b / 16), hexDigit (b % 16)])).flatten

/-- SHA-256 of a byte list, rendered as lowercase hex. -/
def sha256Hex (msg : List Nat) : Str := hexOfBytes (sha256Bytes msg)

/-- Sanity check of the SHA-256 embedding against the FIPS test vector for "abc". -/
theorem sha256_test_vector_abc :
    sha256Hex (utf8 "abc".toList) =
      "ba7816bf8f01cfea414140de5dae2223b00361a396177a9cb410ff61f20015ad".toList := by
  decide

/-! ### The certificate document

A request body is a JSON object; the handlers only ever read the four keys
`recipient`, `course`, `date`, `issuer` (each an `Option Str`, `none` when
the key is absent), except that Python's truthiness test `not cert_data`
also sees keys beyond the four, recorded here by the flag `extra`. -/

structure Doc where
  recipient : Option Str
  course : Option Str
  date : Option Str
  issuer : Option Str
  extra : Bool
deriving DecidableEq

/-- `all(k in data for k in ('recipient', 'course', 'date', 'issuer'))`. -/
def hasAllFields (d : Doc) : Bool :=
  d.recipient.isSome && d.course.isSome && d.date.isSome && d.issuer.isSome

/-- `data.get(key, '')`: the value, or the empty string when the key is absent. -/
def getField (o : Option Str) : Str := o.getD []

/-- Python truthiness of the JSON object: a dict is falsy iff it is empty. -/
def docTruthy (d : Doc) : Bool :=
  d.recipient.isSome || d.course.isSome || d.date.isSome || d.issuer.isSome || d.extra

/-- The canonical string built by `generate_certificate_hash` (app.py lines
43-46): recipient, course, date, issuer joined by pipes, each stripped,
and all but `date` lower-cased. -/
def canonicalString (d : Doc) : Str :=
  pyLower (pyStrip (getField d.recipient)) ++ '|' ::
    (pyLower (pyStrip (getField d.course)) ++ '|' ::
      (pyStrip (getField d.date) ++ '|' ::
        pyLower (pyStrip (getField d.issuer))))

/-- `generate_certificate_hash` (app.py lines 35-48): SHA-256 of the UTF-8
encoded canonical string, rendered as lowercase hex. -/
def generate_certificate_hash (d : Doc) : Str :=
  sha256Hex (utf8 (canonicalString d))

/-! ### The ledger

`CertificateHash` rows (app.py lines 22-29); the auto-increment surrogate
primary key plays no role in the handlers and is omitted.  `issued_at` is an
abstract timestamp (the handlers never inspect it, only store and render it). -/

structure Record where
  certificate_id : Str
  data_hash : Str
  issuer_name : Str
  issued_at : Nat
deriving DecidableEq

/-- The database table: the list of committed rows, in insertion order. -/
abbrev Ledger := List Record

def ids (s : Ledger) : List Str := s.map (·.certificate_id)

/-- `CertificateHash.query.filter_by(certificate_id=cid).first()`. -/
def lookup (s : Ledger) (cid : Str) : Option Record :=
  s.find? (fun r => decide (r.certificate_id = cid))

/-! ### The two handlers

Each handler is a pure step function from the ledger and the request data to
the new ledger and the response.  The response inductives have one
constructor per `return` statement of the handler, carrying exactly the
fields of the returned JSON object that are not constant. -/

/-- Responses of `IssueCertificate.post` (app.py lines 52-85). -/
inductive IssueResult where
  /-- 400, `Missing required fields: recipient, course, date, issuer`. -/
  | missingFields
  /-- 201, with `certificate_id`, `recorded_hash` and `issued_to`. -/
  | success (certificate_id : Str) (recorded_hash : Str) (issued_to : Str)
  /-- 500: the `except` branch; the session is rolled back.  Within this pure
  model it is reached exactly when the UNIQUE constraint on `certificate_id`
  rejects the insert at commit time. -/
  | dbFailure
deriving DecidableEq

/-- Responses of `VerifyCertificate.post` (app.py lines 87-134). -/
inductive VerifyResult where
  /-- 400, `Missing certificate_id or certificate_data.` -/
  | missingInput
  /-- 400, `Certificate data provided is incomplete.` -/
  | incompleteData
  /-- 404, `Certificate ID not found on the ledger.`, with `authentic: False`
  and no fingerprint fields. -/
  | notFound
  /-- 200, `authentic: True`, with `recorded_hash`, `verified_hash` and
  `issued_at`. -/
  | verified (recorded_hash : Str) (verified_hash : Str) (issued_at : Nat)
  /-- 200, `authentic: False`, with `recorded_hash` and `verified_hash`. -/
  | failed (recorded_hash : Str) (verified_hash : Str)
deriving DecidableEq

/-- The HTTP status code of each verify response. -/
def VerifyResult.status : VerifyResult → Nat
  | .missingInput => 400
  | .incompleteData => 400
  | .notFound => 404
  | .verified _ _ _ => 200
  | .failed _ _ => 200

/-- The `authentic` field of the response JSON, `none` when absent. -/
def VerifyResult.authentic : VerifyResult → Option Bool
  | .missingInput => none
  | .incompleteData => none
  | .notFound => some false
  | .verified _ _ _ => some true
  | .failed _ _ => some false

/-- The `recorded_hash` field of the response JSON, `none` when absent. -/
def VerifyResult.recordedHash : VerifyResult → Option Str
  | .verified rh _ _ => some rh
  | .failed rh _ => some rh
  | _ => none

/-- The `verified_hash` field of the response JSON, `none` when absent. -/
def VerifyResult.verifiedHash : VerifyResult → Option Str
  | .verified _ vh _ => some vh
  | .failed _ vh => some vh
  | _ => none

/-- The `issued_at` field of the response JSON, `none` when absent. -/
def VerifyResult.issuedAt : VerifyResult → Option Nat
  | .verified _ _ t => some t
  | _ => none

/-- `IssueCertificate.post`.  `u` stands for the fresh `str(uuid.uuid4())`
drawn during the call and `t` for `datetime.utcnow()`; both are
nondeterministic inputs of the handler.  The UNIQUE constraint on
`certificate_id` makes `db.session.commit()` raise when `u` already occurs
in the table, landing in the `except` branch which rolls the session back. -/
def issueStep (s : Ledger) (data : Doc) (u : Str) (t : Nat) : Ledger × IssueResult :=
  if hasAllFields data then
    let newHash := generate_certificate_hash data
    if u ∈ ids s then (s, .dbFailure)
    else (s ++ [⟨u, newHash, getField data.issuer, t⟩], .success u newHash (getField data.recipient))
  else (s, .missingFields)

/-- `VerifyCertificate.post`.  `cid?` is `data.get('certificate_id')` and
`cd?` is `data.get('certificate_data')`; `if not cert_id or not cert_data`
fails when either is absent, an empty string, or an empty dict. -/
def verifyStep (s : Ledger) (cid? : Option Str) (cd? : Option Doc) :
    Ledger × VerifyResult :=
  match cid?, cd? with
  | some cid, some cd =>
    if cid.isEmpty || !docTruthy cd then (s, .missingInput)
    else if !hasAllFields cd then (s, .incompleteData)
    else
      match lookup s cid with
      | none => (s, .notFound)
      | some r =>
        let verifierHash := generate_certificate_hash cd
        if verifierHash = r.data_hash then
          (s, .verified r.data_hash verifierHash r.issued_at)
        else
          (s, .failed r.data_hash verifierHash)
  | _, _ => (s, .missingInput)

/-- A call to one of the two exposed endpoints (app.py lines 136-138). -/
inductive Op where
  | issue (data : Doc) (u : Str) (t : Nat)
  | verify (cid? : Option Str) (cd? : Option Doc)

/-- The ledger after serving one request. -/
def applyOp (s : Ledger) : Op → Ledger
  | .issue data u t => (issueStep s data u t).1
  | .verify cid? cd? => (verifyStep s cid? cd?).1

/-- The ledger after serving a sequence of requests. -/
def runOps (s : Ledger) (ops : List Op) : Ledger := ops.foldl applyOp s

/-- A sequence of issue calls: the final ledger and the list of responses. -/
def issueRun (s : Ledger) : List (Doc × Str × Nat) → Ledger × List IssueResult
  | [] => (s, [])
  | (d, u, t) :: rest =>
    ((issueRun (issueStep s d u t).1 rest).1,
     (issueStep s d u t).2 :: (issueRun (issueStep s d u t).1 rest).2)

/-- The identifiers returned by the successful responses of a run. -/
def successIds : List IssueResult → List Str
  | [] => []
  | .success u _ _ :: rest => u :: successIds rest
  | _ :: rest => successIds rest

/-! ### Reference definitions taken from the spec's own wording

These follow §4.1 of the design document, to be compared against
`canonicalString`, which is translated from the code. -/

/-- Join a list of values with the pipe delimiter. -/
def joinPipe : List Str → Str
  | [] => []
  | [v] => v
  | v :: rest => v ++ '|' :: joinPipe rest

/-- Canonicalization exactly as §4.1 words it: for each field in the fixed
order [recipient, course, date, issuer] take the value, strip surrounding
whitespace, convert to lowercase, and join the normalized values with a
pipe. -/
def specCanonical (d : Doc) : Str :=
  joinPipe ([d.recipient, d.course, d.date, d.issuer].map
    (fun o => pyLower (pyStrip (getField o))))

/-- The spec's canonicalization amended in one point: the `date` value is
stripped but keeps its letter case; the other three fields are stripped and
lower-cased. -/
def specCanonicalDateCase (d : Doc) : Str :=
  joinPipe [pyLower (pyStrip (getField d.recipient)),
            pyLower (pyStrip (getField d.course)),
            pyStrip (getField d.date),
            pyLower (pyStrip (getField d.issuer))]

/-! ### Whitespace/case variation between field values -/

/-- Pointwise equality of two strings up to ASCII letter case. -/
def caseEqB : Str → Str → Bool
  | [], [] => true
  | a :: s, b :: t => decide (lowerChar a = lowerChar b) && caseEqB s t
  | _, _ => false

/-- The two values differ only by surrounding whitespace and letter case:
after discarding surrounding whitespace they agree character by character up
to case. -/
def wsCaseOnly (s t : Str) : Bool := caseEqB (pyStrip s) (pyStrip t)

/-- The two values differ only by surrounding whitespace. -/
def wsOnly (s t : Str) : Bool := decide (pyStrip s = pyStrip t)

/-! ### Helper lemmas -/

theorem pyLower_eq_of_caseEqB : ∀ s t : Str, caseEqB s t = true → pyLower s = pyLower t := by
  intro s
  induction s with
  | nil =>
    intro t h
    cases t with
    | nil => rfl
    | cons b t => simp [caseEqB] at h
  | cons a s ih =>
    intro t h
    cases t with
    | nil => simp [caseEqB] at h
    | cons b t =>
      simp only [caseEqB, Bool.and_eq_true, decide_eq_true_eq] at h
      simp only [pyLower, List.map_cons]
      exact congrArg₂ List.cons h.1 (ih t h.2)

/-- Fields related by `wsCaseOnly` normalize to the same value. -/
theorem strip_lower_eq_of_wsCaseOnly (s t : Str) (h : wsCaseOnly s t = true) :
    pyLower (pyStrip s) = pyLower (pyStrip t) :=
  pyLower_eq_of_caseEqB _ _ h

theorem docTruthy_of_hasAllFields (d : Doc) (h : hasAllFields d = true) :
    docTruthy d = true := by
  simp only [hasAllFields, Bool.and_eq_true] at h
  simp [docTruthy, h.1]

theorem lookup_append_left (s l : Ledger) (u : Str) (r : Record)
    (h : lookup s u = some r) : lookup (s ++ l) u = some r := by
  simp only [lookup, List.find?_append] at *
  simp [h, Option.or]

theorem lookup_eq_none_of_not_mem (s : Ledger) (u : Str) (h : u ∉ ids s) :
    lookup s u = none := by
  induction s with
  | nil => rfl
  | cons hd tl ih =>
    simp only [ids, List.map_cons, List.mem_cons, not_or] at h
    have hne : decide (hd.certificate_id = u) = false := by
      simp only [decide_eq_false_iff_not]
      exact fun e => h.1 e.symm
    simp only [lookup, List.find?_cons, hne]
    exact ih h.2

theorem lookup_append_fresh (s : Ledger) (r : Record)
    (h : r.certificate_id ∉ ids s) : lookup (s ++ [r]) r.certificate_id = some r := by
  simp only [lookup, List.find?_append]
  rw [show (s.find? fun x => decide (x.certificate_id = r.certificate_id)) = none from
    lookup_eq_none_of_not_mem s _ h]
  simp [List.find?, Option.or]

/-- When the fields are present and the generated UUID is fresh, issuance
commits one new row and reports success. -/
theorem issueStep_success (s : Ledger) (d : Doc) (u : Str) (t : Nat)
    (hf : hasAllFields d = true) (hu : u ∉ ids s) :
    issueStep s d u t =
      (s ++ [⟨u, generate_certificate_hash d, getField d.issuer, t⟩],
       .success u (generate_certificate_hash d) (getField d.recipient)) := by
  simp [issueStep, hf, hu]

/-- Verification never changes the ledger (helper form). -/
theorem verifyStep_fst (s : Ledger) (cid? : Option Str) (cd? : Option Doc) :
    (verifyStep s cid? cd?).1 = s := by
  unfold verifyStep
  cases cid? with
  | none => rfl
  | some cid =>
    cases cd? with
    | none => rfl
    | some cd =>
      dsimp only
      split
      · rfl
      · split
        · rfl
        · split
          · rfl
          · split <;> rfl

/-- Issuance never removes or alters a committed row. -/
theorem lookup_issueStep (s : Ledger) (d : Doc) (u' : Str) (t : Nat)
    (u : Str) (r : Record) (h : lookup s u = some r) :
    lookup (issueStep s d u' t).1 u = some r := by
  unfold issueStep
  split
  · split
    · exact h
    · exact lookup_append_left s _ u r h
  · exact h

theorem lookup_applyOp (s : Ledger) (op : Op) (u : Str) (r : Record)
    (h : lookup s u = some r) : lookup (applyOp s op) u = some r := by
  cases op with
  | issue d u' t => exact lookup_issueStep s d u' t u r h
  | verify cid? cd? => rw [applyOp, verifyStep_fst]; exact h

theorem mem_ids_issueStep (s : Ledger) (d : Doc) (u : Str) (t : Nat)
    (v : Str) (hv : v ∈ ids s) : v ∈ ids (issueStep s d u t).1 := by
  unfold issueStep
  split
  · split
    · exact hv
    · have : ids (s ++ [⟨u, generate_certificate_hash d, getField d.issuer, t⟩]) =
          ids s ++ [u] := by simp [ids]
      dsimp only
      rw [this]
      exact List.mem_append_left _ hv
  · exact hv

theorem mem_ids_issueRun : ∀ (reqs : List (Doc × Str × Nat)) (s : Ledger) (v : Str),
    v ∈ ids s → v ∈ ids (issueRun s reqs).1 := by
  intro reqs
  induction reqs with
  | nil => intro s v hv; exact hv
  | cons req rest ih =>
    intro s v hv
    obtain ⟨d, u, t⟩ := req
    exact ih (issueStep s d u t).1 v (mem_ids_issueStep s d u t v hv)

/-- Every identifier reported by a successful issue call of a run was fresh:
it did not occur in the ledger the run started from. -/
theorem successIds_fresh : ∀ (reqs : List (Doc × Str × Nat)) (s : Ledger) (v : Str),
    v ∈ successIds (issueRun s reqs).2 → v ∉ ids s := by
  intro reqs
  induction reqs with
  | nil => intro s v hv; simp [issueRun, successIds] at hv
  | cons req rest ih =>
    intro s v hv
    obtain ⟨d, u, t⟩ := req
    by_cases hf : hasAllFields d = true
    · by_cases hu : u ∈ ids s
      · have : issueStep s d u t = (s, .dbFailure) := by simp [issueStep, hf, hu]
        rw [issueRun, this] at hv
        exact ih s v hv
      · rw [issueRun, issueStep_success s d u t hf hu] at hv
        dsimp only [successIds] at hv
        rcases List.mem_cons.mp hv with h | h
        · exact h ▸ hu
        · intro hmem
          apply ih _ v h
          have hids : ids (s ++ [⟨u, generate_certificate_hash d, getField d.issuer, t⟩]) =
              ids s ++ [u] := by simp [ids]
          rw [hids]
          exact List.mem_append_left _ hmem
    · have hf' : hasAllFields d = false := by
        cases h : hasAllFields d
        · rfl
        · exact absurd h hf
      have : issueStep s d u t = (s, .missingFields) := by simp [issueStep, hf']
      rw [issueRun, this] at hv
      exact ih s v hv

/-- Successful issue calls keep the set of committed identifiers duplicate
free, and the identifiers they return are pairwise distinct. -/
theorem issueRun_nodup : ∀ (reqs : List (Doc × Str × Nat)) (s : Ledger),
    (ids s).Nodup →
    (ids (issueRun s reqs).1).Nodup ∧ (successIds (issueRun s reqs).2).Nodup := by
  intro reqs
  induction reqs with
  | nil => intro s hs; exact ⟨hs, by simp [issueRun, successIds]⟩
  | cons req rest ih =>
    intro s hs
    obtain ⟨d, u, t⟩ := req
    by_cases hf : hasAllFields d = true
    · by_cases hu : u ∈ ids s
      · have hstep : issueStep s d u t = (s, .dbFailure) := by simp [issueStep, hf, hu]
        rw [issueRun, hstep]
        exact ih s hs
      · rw [issueRun, issueStep_success s d u t hf hu]
        have hids : ids (s ++ [⟨u, generate_certificate_hash d, getField d.issuer, t⟩]) =
            ids s ++ [u] := by simp [ids]
        have hs' : (ids (s ++ [⟨u, generate_certificate_hash d, getField d.issuer, t⟩])).Nodup := by
          rw [hids]
          simp only [List.nodup_append, List.nodup_cons, List.not_mem_nil, List.nodup_nil,
            not_false_eq_true, true_and, List.disjoint_singleton]
          exact ⟨hs, hu⟩
        obtain ⟨h1, h2⟩ := ih _ hs'
        refine ⟨h1, ?_⟩
        dsimp only [successIds]
        refine List.nodup_cons.mpr ⟨?_, h2⟩
        intro hmem
        have hfresh := successIds_fresh rest _ u hmem
        apply hfresh
        rw [hids]
        exact List.mem_append_right _ (by simp)
    · have hf' : hasAllFields d = false := by
        cases h : hasAllFields d
        · rfl
        · exact absurd h hf
      have hstep : issueStep s d u t = (s, .missingFields) := by simp [issueStep, hf']
      rw [issueRun, hstep]
      exact ih s hs

/-! ### Concrete documents used in counterexamples and witnesses -/

/-- The concrete scenario of §8 of the spec. -/
def bobDoc : Doc :=
  ⟨some "Bob Lee".toList, some "Systems Design".toList,
   some "2024-01-10".toList, some "Acme".toList, false⟩

/-- `bobDoc` with case and surrounding-whitespace changes in recipient,
course and issuer; the date is untouched. -/
def bobDocVariant : Doc :=
  ⟨some "  bob lee".toList, some "SYSTEMS design ".toList,
   some "2024-01-10".toList, some "ACME".toList, false⟩

/-- A document whose date value contains an uppercase letter. -/
def upperDateDoc : Doc :=
  ⟨some "Bob Lee".toList, some "Systems Design".toList,
   some "2024-JAN-10".toList, some "Acme".toList, false⟩

/-- `upperDateDoc` with only the letter case of the date changed. -/
def lowerDateDoc : Doc :=
  ⟨some "Bob Lee".toList, some "Systems Design".toList,
   some "2024-jan-10".toList, some "Acme".toList, false⟩

/-- A document whose recipient value contains the pipe delimiter. -/
def pipeDocA : Doc :=
  ⟨some "a|b".toList, some "c".toList, some "2024-01-10".toList, some "e".toList, false⟩

/-- A document with a different recipient/course split of the same canonical
characters as `pipeDocA`. -/
def pipeDocB : Doc :=
  ⟨some "a".toList, some "b|c".toList, some "2024-01-10".toList, some "e".toList, false⟩

/-- A document missing the `date` field. -/
def incompleteDoc : Doc :=
  ⟨some "Bob Lee".toList, some "Systems Design".toList, none, some "Acme".toList, false⟩

def sampleId : Str := "7d44f10e-0000-4000-8000-c0ffee000001".toList

def sampleId2 : Str := "7d44f10e-0000-4000-8000-c0ffee000002".toList

/-- `bobDoc` with the course changed beyond whitespace and case. -/
def tamperedDoc : Doc :=
  ⟨some "Bob Lee".toList, some "Systems Design 2".toList,
   some "2024-01-10".toList, some "Acme".toList, false⟩

/-- A ledger row used as a pre-existing record in witnesses. -/
def sampleRecord : Record := ⟨sampleId, "deadbeef".toList, "Acme".toList, 5⟩

/-! ### The claims -/

/-- Claim C1, counterexample: the code does not lower-case the `date` value,
so on a document whose date contains uppercase letters the canonical string
differs from the spec's reference canonicalization (which lower-cases all
four fields), and so does the resulting fingerprint. -/
theorem canonicalization_spec_cex :
    hasAllFields upperDateDoc = true ∧
    canonicalString upperDateDoc ≠ specCanonical upperDateDoc ∧
    generate_certificate_hash upperDateDoc ≠ sha256Hex (utf8 (specCanonical upperDateDoc)) := by
  decide

/-- Claim C1 (amended): for every document containing the four fields, the
code's canonicalization equals the reference definition with the one
amendment that the `date` value is stripped of surrounding whitespace but
keeps its letter case, while recipient, course and issuer are stripped and
lower-cased; the fingerprint is the SHA-256 hash of the UTF-8 bytes of that
canonical string rendered as lowercase hex. -/
theorem canonicalization_matches_spec_date_case (d : Doc) (_h : hasAllFields d = true) :
    canonicalString d = specCanonicalDateCase d ∧
    generate_certificate_hash d = sha256Hex (utf8 (specCanonicalDateCase d)) := by
  have h1 : canonicalString d = specCanonicalDateCase d := rfl
  exact ⟨h1, by rw [generate_certificate_hash, h1]⟩

/-- Witness for the amended claim C1 at the spec's concrete document. -/
theorem canonicalization_matches_spec_date_case_witness :
    hasAllFields bobDoc = true ∧
    (canonicalString bobDoc = specCanonicalDateCase bobDoc ∧
     generate_certificate_hash bobDoc = sha256Hex (utf8 (specCanonicalDateCase bobDoc))) :=
  ⟨by decide, canonicalization_matches_spec_date_case bobDoc (by decide)⟩

/-- Claim C2: issuing a document with all four fields under a fresh UUID
reports success with that identifier, and verifying the exact same document
under the returned identifier yields the authentic verdict, with stored and
computed fingerprints both equal to the document's fingerprint and the
original issuance timestamp included in the result. -/
theorem issue_verify_roundtrip_authentic (s : Ledger) (d : Doc) (u : Str) (t : Nat)
    (hf : hasAllFields d = true) (hu : u ∉ ids s) (hne : u ≠ []) :
    (issueStep s d u t).2 =
      .success u (generate_certificate_hash d) (getField d.recipient) ∧
    (verifyStep (issueStep s d u t).1 (some u) (some d)).2 =
      .verified (generate_certificate_hash d) (generate_certificate_hash d) t := by
  rw [issueStep_success s d u t hf hu]
  refine ⟨rfl, ?_⟩
  have hemp : u.isEmpty = false := by
    cases u with
    | nil => exact absurd rfl hne
    | cons a l => rfl
  have htr := docTruthy_of_hasAllFields d hf
  have hlook : lookup (s ++ [⟨u, generate_certificate_hash d, getField d.issuer, t⟩]) u =
      some ⟨u, generate_certificate_hash d, getField d.issuer, t⟩ :=
    lookup_append_fresh s _ hu
  simp [verifyStep, hemp, htr, hf, hlook]

/-- Witness for claim C2 on the empty ledger. -/
theorem issue_verify_roundtrip_authentic_witness :
    hasAllFields bobDoc = true ∧ sampleId ∉ ids ([] : Ledger) ∧ sampleId ≠ [] ∧
    ((issueStep [] bobDoc sampleId 0).2 =
       .success sampleId (generate_certificate_hash bobDoc) (getField bobDoc.recipient) ∧
     (verifyStep (issueStep [] bobDoc sampleId 0).1 (some sampleId) (some bobDoc)).2 =
       .verified (generate_certificate_hash bobDoc) (generate_certificate_hash bobDoc) 0) :=
  ⟨by decide, by decide, by decide,
   issue_verify_roundtrip_authentic [] bobDoc sampleId 0 (by decide) (by decide) (by decide)⟩

/-- Claim C3, counterexample: `pipeDocB` differs from the issued `pipeDocA`
in the recipient field by more than surrounding whitespace or letter case
(the values are `a|b` and `a`), yet because the pipe delimiter is not
escaped the canonical strings coincide and verification reports the
document as authentic instead of detecting the tampering. -/
theorem tamper_detection_pipe_cex :
    wsCaseOnly (getField pipeDocA.recipient) (getField pipeDocB.recipient) = false ∧
    (issueStep [] pipeDocA sampleId 0).2 =
      .success sampleId (generate_certificate_hash pipeDocA) (getField pipeDocA.recipient) ∧
    ((verifyStep (issueStep [] pipeDocA sampleId 0).1 (some sampleId) (some pipeDocB)).2).authentic
      = some true := by
  decide

/-- Claim C3 (amended): for every issued document and every candidate whose
fingerprint differs from the issued one (field differences beyond
whitespace and case guarantee this only when they change the canonical
string; an unescaped pipe delimiter can make distinct fields canonicalize
equally), verification under the returned identifier reports not authentic
and returns both the stored and the computed fingerprint, which differ. -/
theorem tamper_detection_fingerprint_mismatch (s : Ledger) (d d' : Doc) (u : Str) (t : Nat)
    (hf : hasAllFields d = true) (hu : u ∉ ids s) (hne : u ≠ [])
    (hf' : hasAllFields d' = true)
    (hdiff : generate_certificate_hash d' ≠ generate_certificate_hash d) :
    (verifyStep (issueStep s d u t).1 (some u) (some d')).2 =
      .failed (generate_certificate_hash d) (generate_certificate_hash d') ∧
    generate_certificate_hash d ≠ generate_certificate_hash d' := by
  rw [issueStep_success s d u t hf hu]
  have hemp : u.isEmpty = false := by
    cases u with
    | nil => exact absurd rfl hne
    | cons a l => rfl
  have htr := docTruthy_of_hasAllFields d' hf'
  have hlook : lookup (s ++ [⟨u, generate_certificate_hash d, getField d.issuer, t⟩]) u =
      some ⟨u, generate_certificate_hash d, getField d.issuer, t⟩ :=
    lookup_append_fresh s _ hu
  refine ⟨?_, fun e => hdiff e.symm⟩
  simp [verifyStep, hemp, htr, hf', hlook, hdiff]

/-- Witness for the amended claim C3: the course of `tamperedDoc` was
altered, the fingerprints differ, and verification fails. -/
theorem tamper_detection_fingerprint_mismatch_witness :
    hasAllFields bobDoc = true ∧ sampleId ∉ ids ([] : Ledger) ∧ sampleId ≠ [] ∧
    hasAllFields tamperedDoc = true ∧
    generate_certificate_hash tamperedDoc ≠ generate_certificate_hash bobDoc ∧
    ((verifyStep (issueStep [] bobDoc sampleId 0).1 (some sampleId) (some tamperedDoc)).2 =
       .failed (generate_certificate_hash bobDoc) (generate_certificate_hash tamperedDoc) ∧
     generate_certificate_hash bobDoc ≠ generate_certificate_hash tamperedDoc) :=
  ⟨by decide, by decide, by decide, by decide, by decide,
   tamper_detection_fingerprint_mismatch [] bobDoc tamperedDoc sampleId 0
     (by decide) (by decide) (by decide) (by decide) (by decide)⟩

/-- Claim C4, counterexample: two documents that differ only in the letter
case of the date value do not canonicalize identically, because the code
strips but does not lower-case the date; their fingerprints differ. -/
theorem normalization_invariance_date_cex :
    (wsCaseOnly (getField upperDateDoc.recipient) (getField lowerDateDoc.recipient) = true ∧
     wsCaseOnly (getField upperDateDoc.course) (getField lowerDateDoc.course) = true ∧
     wsCaseOnly (getField upperDateDoc.date) (getField lowerDateDoc.date) = true ∧
     wsCaseOnly (getField upperDateDoc.issuer) (getField lowerDateDoc.issuer) = true) ∧
    canonicalString upperDateDoc ≠ canonicalString lowerDateDoc ∧
    generate_certificate_hash upperDateDoc ≠ generate_certificate_hash lowerDateDoc := by
  decide

/-- Claim C4 (amended): for documents containing all four fields,
surrounding-whitespace and letter-case differences collapse in recipient,
course and issuer, while the date may differ only in surrounding
whitespace; then the canonical strings and hence the fingerprints agree. -/
theorem normalization_invariance_amended (d d' : Doc)
    (_hall : hasAllFields d = true) (_hall' : hasAllFields d' = true)
    (hr : wsCaseOnly (getField d.recipient) (getField d'.recipient) = true)
    (hc : wsCaseOnly (getField d.course) (getField d'.course) = true)
    (hd : wsOnly (getField d.date) (getField d'.date) = true)
    (hi : wsCaseOnly (getField d.issuer) (getField d'.issuer) = true) :
    canonicalString d = canonicalString d' ∧
    generate_certificate_hash d = generate_certificate_hash d' := by
  have h1 := strip_lower_eq_of_wsCaseOnly _ _ hr
  have h2 := strip_lower_eq_of_wsCaseOnly _ _ hc
  have h3 : pyStrip (getField d.date) = pyStrip (getField d'.date) := of_decide_eq_true hd
  have h4 := strip_lower_eq_of_wsCaseOnly _ _ hi
  have hcan : canonicalString d = canonicalString d' := by
    unfold canonicalString
    rw [h1, h2, h3, h4]
  exact ⟨hcan, by unfold generate_certificate_hash; rw [hcan]⟩

/-- Witness for the amended claim C4 on the spec's §8 example documents. -/
theorem normalization_invariance_amended_witness :
    (hasAllFields bobDoc = true ∧ hasAllFields bobDocVariant = true ∧
     wsCaseOnly (getField bobDoc.recipient) (getField bobDocVariant.recipient) = true ∧
     wsCaseOnly (getField bobDoc.course) (getField bobDocVariant.course) = true ∧
     wsOnly (getField bobDoc.date) (getField bobDocVariant.date) = true ∧
     wsCaseOnly (getField bobDoc.issuer) (getField bobDocVariant.issuer) = true) ∧
    (canonicalString bobDoc = canonicalString bobDocVariant ∧
     generate_certificate_hash bobDoc = generate_certificate_hash bobDocVariant) :=
  ⟨⟨by decide, by decide, by decide, by decide, by decide, by decide⟩,
   normalization_invariance_amended bobDoc bobDocVariant
     (by decide) (by decide) (by decide) (by decide) (by decide) (by decide)⟩

/-- Claim C5, counterexample: the empty-string identifier is absent from the
(empty) ledger and the candidate document is well formed, yet verification
answers with the 400 missing-input response, which carries no `authentic`
field at all, rather than the NotFound-flavored result with
`authentic = false`: Python's falsiness test routes the empty identifier to
the malformed-input branch before the ledger is consulted. -/
theorem unknown_id_empty_cex :
    lookup ([] : Ledger) [] = none ∧ hasAllFields bobDoc = true ∧
    (verifyStep [] (some []) (some bobDoc)).2 = .missingInput ∧
    ((verifyStep [] (some []) (some bobDoc)).2).authentic = none ∧
    (verifyStep [] (some []) (some bobDoc)).2 ≠ .notFound := by
  decide

/-- Claim C5 (amended): for every nonempty identifier absent from the ledger
and every candidate document containing the four fields, verification
returns the NotFound result: authentic is reported false, neither the
stored nor the computed fingerprint appears, the status is 404, and the
result is distinct from every mismatch result. -/
theorem unknown_id_notfound (s : Ledger) (cid : Str) (d : Doc)
    (hne : cid ≠ []) (hl : lookup s cid = none) (hf : hasAllFields d = true) :
    (verifyStep s (some cid) (some d)).2 = .notFound ∧
    ((verifyStep s (some cid) (some d)).2).authentic = some false ∧
    ((verifyStep s (some cid) (some d)).2).recordedHash = none ∧
    ((verifyStep s (some cid) (some d)).2).verifiedHash = none ∧
    ((verifyStep s (some cid) (some d)).2).status = 404 ∧
    ∀ rh vh, (verifyStep s (some cid) (some d)).2 ≠ .failed rh vh := by
  have hemp : cid.isEmpty = false := by
    cases cid with
    | nil => exact absurd rfl hne
    | cons a l => rfl
  have htr := docTruthy_of_hasAllFields d hf
  have hres : (verifyStep s (some cid) (some d)).2 = .notFound := by
    simp [verifyStep, hemp, htr, hf, hl]
  rw [hres]
  exact ⟨rfl, rfl, rfl, rfl, rfl, fun rh vh h => VerifyResult.noConfusion h⟩

/-- Witness for the amended claim C5 on the empty ledger. -/
theorem unknown_id_notfound_witness :
    sampleId ≠ [] ∧ lookup ([] : Ledger) sampleId = none ∧ hasAllFields bobDoc = true ∧
    ((verifyStep [] (some sampleId) (some bobDoc)).2 = .notFound ∧
     ((verifyStep [] (some sampleId) (some bobDoc)).2).authentic = some false ∧
     ((verifyStep [] (some sampleId) (some bobDoc)).2).recordedHash = none ∧
     ((verifyStep [] (some sampleId) (some bobDoc)).2).verifiedHash = none ∧
     ((verifyStep [] (some sampleId) (some bobDoc)).2).status = 404 ∧
     ∀ rh vh, (verifyStep [] (some sampleId) (some bobDoc)).2 ≠ .failed rh vh) :=
  ⟨by decide, by decide, by decide,
   unknown_id_notfound [] sampleId bobDoc (by decide) (by decide) (by decide)⟩

/-- Claim C6: a committed record is immutable.  The exposed operations are
exactly the two endpoints; after any sequence of further issue and verify
calls, the record stored under an identifier is looked up unchanged, with
its identifier, fingerprint, issuer and issuance timestamp intact. -/
theorem ledger_record_immutable (s : Ledger) (ops : List Op) (u : Str) (r : Record)
    (h : lookup s u = some r) : lookup (runOps s ops) u = some r := by
  induction ops generalizing s with
  | nil => exact h
  | cons op rest ih => exact ih (applyOp s op) (lookup_applyOp s op u r h)

/-- Witness for claim C6: a stored record survives a later issuance and a
later verification. -/
theorem ledger_record_immutable_witness :
    lookup [sampleRecord] sampleId = some sampleRecord ∧
    lookup (runOps [sampleRecord]
      [.issue bobDoc sampleId2 7, .verify (some sampleId) (some bobDoc)]) sampleId =
      some sampleRecord :=
  ⟨by decide,
   ledger_record_immutable [sampleRecord]
     [.issue bobDoc sampleId2 7, .verify (some sampleId) (some bobDoc)]
     sampleId sampleRecord (by decide)⟩

/-- Claim C7: starting from a ledger whose identifiers are duplicate free,
any sequence of issue calls (documents may repeat) returns pairwise
distinct identifiers on its successful calls, and the ledger never holds
two records sharing one identifier. -/
theorem issue_identifiers_unique (s : Ledger) (reqs : List (Doc × Str × Nat))
    (h : (ids s).Nodup) :
    (successIds (issueRun s reqs).2).Nodup ∧ (ids (issueRun s reqs).1).Nodup :=
  ⟨(issueRun_nodup reqs s h).2, (issueRun_nodup reqs s h).1⟩

/-- Witness for claim C7: two issuances of the identical document on the
empty ledger. -/
theorem issue_identifiers_unique_witness :
    (ids ([] : Ledger)).Nodup ∧
    ((successIds (issueRun [] [(bobDoc, sampleId, 0), (bobDoc, sampleId2, 1)]).2).Nodup ∧
     (ids (issueRun [] [(bobDoc, sampleId, 0), (bobDoc, sampleId2, 1)]).1).Nodup) :=
  ⟨by decide,
   issue_identifiers_unique [] [(bobDoc, sampleId, 0), (bobDoc, sampleId2, 1)] (by decide)⟩

/-- Claim C8: when the input document misses one of the four required
fields, issuing returns the 400 validation response and leaves the ledger
untouched, and verifying returns a 400 validation response that carries no
`authentic` field, leaves the ledger untouched, and does not depend on the
ledger at all, i.e. it is produced before any record lookup. -/
theorem missing_fields_validation (s s' : Ledger) (d : Doc) (u : Str) (t : Nat)
    (cid? : Option Str) (h : hasAllFields d = false) :
    issueStep s d u t = (s, .missingFields) ∧
    (verifyStep s cid? (some d)).1 = s ∧
    ((verifyStep s cid? (some d)).2).status = 400 ∧
    ((verifyStep s cid? (some d)).2).authentic = none ∧
    (verifyStep s cid? (some d)).2 = (verifyStep s' cid? (some d)).2 := by
  have hval : ∀ sl : Ledger, (verifyStep sl cid? (some d)).2 = .missingInput ∨
      (verifyStep sl cid? (some d)).2 = .incompleteData := by
    intro sl
    cases cid? with
    | none => exact Or.inl rfl
    | some cid =>
      simp only [verifyStep]
      by_cases hemp : (cid.isEmpty || !docTruthy d) = true
      · rw [if_pos hemp]
        exact Or.inl rfl
      · rw [if_neg hemp, if_pos (by simp [h])]
        exact Or.inr rfl
  have hind : ∀ sl : Ledger, (verifyStep sl cid? (some d)).2 =
      (verifyStep ([] : Ledger) cid? (some d)).2 := by
    intro sl
    cases cid? with
    | none => rfl
    | some cid =>
      simp only [verifyStep]
      by_cases hemp : (cid.isEmpty || !docTruthy d) = true
      · rw [if_pos hemp, if_pos hemp]
      · rw [if_neg hemp, if_neg hemp, if_pos (by simp [h]), if_pos (by simp [h])]
  refine ⟨by simp [issueStep, h], verifyStep_fst s cid? (some d), ?_, ?_,
    (hind s).trans (hind s').symm⟩
  · rcases hval s with he | he <;> rw [he] <;> rfl
  · rcases hval s with he | he <;> rw [he] <;> rfl

/-- Witness for claim C8 with the date field missing. -/
theorem missing_fields_validation_witness :
    hasAllFields incompleteDoc = false ∧
    (issueStep [sampleRecord] incompleteDoc sampleId2 3 = ([sampleRecord], .missingFields) ∧
     (verifyStep [sampleRecord] (some sampleId) (some incompleteDoc)).1 = [sampleRecord] ∧
     ((verifyStep [sampleRecord] (some sampleId) (some incompleteDoc)).2).status = 400 ∧
     ((verifyStep [sampleRecord] (some sampleId) (some incompleteDoc)).2).authentic = none ∧
     (verifyStep [sampleRecord] (some sampleId) (some incompleteDoc)).2 =
       (verifyStep [] (some sampleId) (some incompleteDoc)).2) :=
  ⟨by decide,
   missing_fields_validation [sampleRecord] [] incompleteDoc sampleId2 3 (some sampleId)
     (by decide)⟩

/-- Claim C9: the delimiter is not escaped, so two documents with different
recipient/course pairs, one with a pipe inside the recipient, share one
canonical string and one fingerprint. -/
theorem delimiter_collision_exists :
    ∃ d d' : Doc, d.recipient ≠ d'.recipient ∧ d.course ≠ d'.course ∧
      '|' ∈ getField d.recipient ∧
      canonicalString d = canonicalString d' ∧
      generate_certificate_hash d = generate_certificate_hash d' :=
  ⟨pipeDocA, pipeDocB, by decide, by decide, by decide, by decide, by decide⟩

/-- Claim C10: verification is read-only: for every identifier and
candidate document, well formed or not, the ledger after a verify call is
exactly the ledger before it. -/
theorem verify_leaves_ledger_unchanged (s : Ledger) (cid? : Option Str) (cd? : Option Doc) :
    (verifyStep s cid? cd?).1 = s :=
  verifyStep_fst s cid? cd?
